import Mathlib

/-!
# LAF OS library: `os::System` (src/os/system.h)

A shallow embedding of the one member of `os::System` that has a body in the header,
`hasCapability`, together with the contracts of the pure virtual members
`createDisplay` and `listColorSpaces`.

`hasCapability` is embedded twice. `System.hasCapability` takes `capabilities()` as the
`const` query the header declares. `Derived.hasCapability` runs the same body over an
override of `capabilities()` of which nothing is assumed, so that what the member does
to the state of the program is something to prove and not a matter of typing.

C++ `int` values are Lean `Int`s. The only arithmetic the header performs on them is
bitwise `&` and `==`, which cannot overflow; `Int.land` is the two's complement `&`
(negative numbers carry an infinite run of sign bits), so on every value in the range
of a machine `int` it computes what the C++ expression computes.
-/

namespace os

/-- Modelled from the spec: the enum `Capabilities` is declared in `os/capabilities.h`,
which is not among the sources. The spec calls it a bitmask of optional platform
features, and the header only ever converts it with `int(...)`; `toInt` is that
conversion. -/
structure Capabilities where
  toInt : Int
  deriving DecidableEq, Repr

/-- Modelled from the spec: the mask written `a | b`. The operators of the enum live in
the absent `os/capabilities.h`; the value of `a | b` is the bitwise or of the two
`int` values. -/
def Capabilities.lor (a b : Capabilities) : Capabilities :=
  ⟨Int.lor a.toInt b.toInt⟩

/-- The empty capability mask, integer value 0. -/
def Capabilities.none : Capabilities :=
  ⟨0⟩

/-- The abstract class `System`, as far as `hasCapability` reads it: `σ` is whatever
state the concrete backend object keeps, and `capabilities` is the pure virtual
`virtual Capabilities capabilities() const = 0`, a `const` query of that state. -/
structure System (σ : Type) where
  capabilities : σ → Capabilities

/-- The member
`bool hasCapability(Capabilities c) const { return (int(capabilities()) & int(c)) == int(c); }`
in state-passing form: the result, and the state of the object after the call (the
member is `const` and calls only the `const` member `capabilities()`). -/
def System.hasCapability {σ : Type} (sys : System σ) (self : σ) (c : Capabilities) :
    Bool × σ :=
  (decide (Int.land (sys.capabilities self).toInt c.toInt = c.toInt), self)

/-- The words of the specification for "`c` is included in the bitmask `caps`":
every bit set in `c` is also set in `caps`. -/
def Capabilities.includes (caps c : Capabilities) : Prop :=
  ∀ i : Nat, c.toInt.testBit i = true → caps.toInt.testBit i = true

/-- A concrete backend used to evaluate the definitions: its state is the bitmask it
reports. -/
def fixedSystem : System Capabilities :=
  ⟨fun caps => caps⟩

/-- A class derived from `System` with nothing assumed of its override of the pure
virtual `capabilities()`: `σ` is the state of the program (the object and whatever
else the override can reach), and a call hands back a bitmask together with the state
it leaves behind. -/
structure Derived (σ : Type) where
  capabilities : σ → Capabilities × σ

/-- The member
`bool hasCapability(Capabilities c) const { return (int(capabilities()) & int(c)) == int(c); }`
run on such a class from the state `s`: one call of `capabilities()`, then the
comparison of its value with `c`. The body has no other call and no assignment, so
the state after it is the state that call of `capabilities()` left. -/
def Derived.hasCapability {σ : Type} (d : Derived σ) (c : Capabilities) (s : σ) :
    Bool × σ :=
  let r := d.capabilities s
  (decide (Int.land r.1.toInt c.toInt = c.toInt), r.2)

/-- Modelled from the spec: the error taxonomy of §7. No implementation of `System` is
among the sources; the header itself only declares `DisplayCreationException`, the
creation-failure kind for displays. -/
inductive Error where
  | CreationFailure
  | DecodeFailure
  | UnsupportedCapability
  | InvalidArgument
  deriving DecidableEq, Repr

/-- Modelled from the spec: `os/color_space.h` is not among the sources. A color space
is identified by its descriptor (a named standard space or a profile). -/
structure ColorSpace where
  descriptor : String
  deriving DecidableEq, Repr

/-- Modelled from the spec: the class `Surface` is only forward-declared in the header.
A surface owns a pixel buffer of fixed width and height. -/
structure Surface where
  width : Int
  height : Int
  deriving DecidableEq, Repr

/-- Modelled from the spec: the class `Display` is only forward-declared in the header.
A display has a size, a scale factor and an implicit backing surface. -/
structure Display where
  width : Int
  height : Int
  scale : Int
  surface : Surface
  deriving DecidableEq, Repr

/-- Modelled from the spec: the platform backend, an external collaborator consumed
through a narrow interface (§6). `colorSpaces` is what the platform can enumerate
(sRGB plus the profile of each connected monitor). -/
structure Backend where
  colorSpaces : List ColorSpace

/-- Modelled from the spec: `virtual Display* createDisplay(int width, int height, int scale) = 0`
has no implementation among the sources. By §4.1, §7 and §8, as a contract on the
arguments: non-positive width, height or scale is the invalid-argument kind of error;
otherwise an owned display is returned whose backing surface has the requested pixel
size scaled by `scale`, read as each dimension multiplied by `scale`. -/
def System.createDisplay (width height scale : Int) : Except Error Display :=
  if width ≤ 0 ∨ height ≤ 0 ∨ scale ≤ 0 then
    Except.error Error.InvalidArgument
  else
    Except.ok ⟨width, height, scale, ⟨width * scale, height * scale⟩⟩

/-- Modelled from the spec:
`virtual void listColorSpaces(std::vector<os::ColorSpacePtr>& list) = 0` has no
implementation among the sources. By §4.1 it appends every color space the platform
can enumerate to the caller-supplied collection and never clears what is already
there. The result is the collection after the call. -/
def System.listColorSpaces (backend : Backend) (list : List ColorSpace) :
    List ColorSpace :=
  list ++ backend.colorSpaces

/-- A backend with two enumerable color spaces. -/
def sampleBackend : Backend :=
  ⟨[⟨"sRGB"⟩, ⟨"Display P3"⟩]⟩

/-! ## Bit-level facts about `Int.land` and `Int.lor` -/

theorem int_eq_of_testBit_eq {m n : Int} (h : ∀ i, m.testBit i = n.testBit i) : m = n := by
  cases m with
  | ofNat a =>
    cases n with
    | ofNat b =>
      congr 1
      apply Nat.eq_of_testBit_eq
      intro i
      simpa [Int.testBit] using h i
    | negSucc b =>
      exfalso
      have ha : a.testBit (max a b) = false :=
        Nat.testBit_lt_two_pow (lt_of_lt_of_le (Nat.lt_two_pow a)
          (Nat.pow_le_pow_right (by decide) (le_max_left a b)))
      have hb : b.testBit (max a b) = false :=
        Nat.testBit_lt_two_pow (lt_of_lt_of_le (Nat.lt_two_pow b)
          (Nat.pow_le_pow_right (by decide) (le_max_right a b)))
      have := h (max a b)
      simp [Int.testBit, ha, hb] at this
  | negSucc a =>
    cases n with
    | ofNat b =>
      exfalso
      have ha : a.testBit (max a b) = false :=
        Nat.testBit_lt_two_pow (lt_of_lt_of_le (Nat.lt_two_pow a)
          (Nat.pow_le_pow_right (by decide) (le_max_left a b)))
      have hb : b.testBit (max a b) = false :=
        Nat.testBit_lt_two_pow (lt_of_lt_of_le (Nat.lt_two_pow b)
          (Nat.pow_le_pow_right (by decide) (le_max_right a b)))
      have := h (max a b)
      simp [Int.testBit, ha, hb] at this
    | negSucc b =>
      congr 1
      apply Nat.eq_of_testBit_eq
      intro i
      simpa [Int.testBit] using h i

/-- The comparison `(caps & c) == c` holds exactly when every bit of `c` is a bit of
`caps`. -/
theorem land_eq_right_iff (caps c : Int) :
    Int.land caps c = c ↔ ∀ i : Nat, c.testBit i = true → caps.testBit i = true := by
  constructor
  · intro h i hi
    have := Int.testBit_land caps c i
    rw [h, hi] at this
    simpa using this.symm
  · intro h
    apply int_eq_of_testBit_eq
    intro i
    rw [Int.testBit_land]
    cases hc : c.testBit i with
    | false => simp
    | true => simp [h i hc]

/-! ## `hasCapability` -/

/-- C1: `hasCapability(c)` returns true exactly when `c` is included in the bitmask
returned by `capabilities()`, that is when every bit set in `c` is also set in the
bitmask, which is the same as `capabilities() & c == c`; it returns false otherwise. -/
theorem hasCapability_iff_includes {σ : Type} (sys : System σ) (self : σ)
    (c : Capabilities) :
    ((sys.hasCapability self c).1 = true ↔ (sys.capabilities self).includes c) ∧
    ((sys.capabilities self).includes c ↔
      Int.land (sys.capabilities self).toInt c.toInt = c.toInt) ∧
    ((sys.hasCapability self c).1 = false ↔ ¬ (sys.capabilities self).includes c) := by
  have key := land_eq_right_iff (sys.capabilities self).toInt c.toInt
  refine ⟨?_, ?_, ?_⟩
  · simp only [System.hasCapability, decide_eq_true_eq]
    exact key
  · exact key.symm
  · simp only [System.hasCapability, decide_eq_false_iff_not]
    exact not_congr key

/-- C2: `hasCapability(a | b)` is true if and only if `hasCapability(a)` is true and
`hasCapability(b)` is true, for every bitmask `capabilities()` reports. -/
theorem hasCapability_lor {σ : Type} (sys : System σ) (self : σ) (a b : Capabilities) :
    (sys.hasCapability self (a.lor b)).1 = true ↔
      (sys.hasCapability self a).1 = true ∧ (sys.hasCapability self b).1 = true := by
  simp only [System.hasCapability, decide_eq_true_eq, Capabilities.lor, land_eq_right_iff,
    Int.testBit_lor, Bool.or_eq_true]
  constructor
  · intro h
    exact ⟨fun i hi => h i (Or.inl hi), fun i hi => h i (Or.inr hi)⟩
  · rintro ⟨ha, hb⟩ i (hi | hi)
    · exact ha i hi
    · exact hb i hi

/-- C7: for every bitmask `capabilities()` reports, the empty one included,
`hasCapability` of the empty mask (integer value 0) returns true. -/
theorem hasCapability_none {σ : Type} (sys : System σ) (self : σ) :
    (sys.hasCapability self Capabilities.none).1 = true ∧
    (fixedSystem.hasCapability Capabilities.none Capabilities.none).1 = true := by
  have h : ∀ x : Int, Int.land x 0 = 0 := by
    intro x
    rw [land_eq_right_iff]
    intro i hi
    simp [Int.testBit] at hi
  simp [System.hasCapability, Capabilities.none, h]

/-- C8: `hasCapability` is monotone in the capability set: when every bit of the mask
reported by one system is set in the mask reported by another and `hasCapability(c)`
is true for the first, it is true for the second. -/
theorem hasCapability_mono {σ τ : Type} (sys₁ : System σ) (sys₂ : System τ) (s₁ : σ)
    (s₂ : τ) (c : Capabilities)
    (hsub : (sys₂.capabilities s₂).includes (sys₁.capabilities s₁))
    (h : (sys₁.hasCapability s₁ c).1 = true) :
    (sys₂.hasCapability s₂ c).1 = true := by
  simp only [System.hasCapability, decide_eq_true_eq, land_eq_right_iff] at h ⊢
  exact fun i hi => hsub i (h i hi)

/-- C8, evaluated: the mask 5 lies within the mask 7, a system reporting 5 has the
capability 4, and so has a system reporting 7. -/
theorem hasCapability_mono_witness :
    (fixedSystem.capabilities ⟨7⟩).includes (fixedSystem.capabilities ⟨5⟩) ∧
    (fixedSystem.hasCapability ⟨5⟩ ⟨4⟩).1 = true ∧
    (fixedSystem.hasCapability ⟨7⟩ ⟨4⟩).1 = true :=
  have hsub : (fixedSystem.capabilities ⟨7⟩).includes (fixedSystem.capabilities ⟨5⟩) :=
    (land_eq_right_iff 7 5).mp (by decide)
  ⟨hsub, by decide,
    hasCapability_mono fixedSystem fixedSystem ⟨5⟩ ⟨7⟩ ⟨4⟩ hsub (by decide)⟩

/-- C9: for every system, `hasCapability(capabilities())` returns true. -/
theorem hasCapability_capabilities {σ : Type} (sys : System σ) (self : σ) :
    (sys.hasCapability self (sys.capabilities self)).1 = true := by
  simp only [System.hasCapability, decide_eq_true_eq, land_eq_right_iff]
  exact fun _ hi => hi

/-! ## `createDisplay` and `listColorSpaces` -/

/-- C4: for all invalid arguments (width ≤ 0 or height ≤ 0 or scale ≤ 0),
`createDisplay` fails with the invalid-argument error and returns no display. -/
theorem createDisplay_invalid (width height scale : Int)
    (hinv : width ≤ 0 ∨ height ≤ 0 ∨ scale ≤ 0) :
    System.createDisplay width height scale = Except.error Error.InvalidArgument ∧
    (System.createDisplay width height scale).toOption = none := by
  simp [System.createDisplay, hinv, Except.toOption]

/-- C4, evaluated: a display of width 0 is asked for. -/
theorem createDisplay_invalid_witness :
    ((0 : Int) ≤ 0 ∨ (480 : Int) ≤ 0 ∨ (2 : Int) ≤ 0) ∧
    System.createDisplay 0 480 2 = Except.error Error.InvalidArgument ∧
    (System.createDisplay 0 480 2).toOption = none :=
  ⟨by decide, createDisplay_invalid 0 480 2 (by decide)⟩

/-- C6: `listColorSpaces` is additive: the collection after the call starts with every
entry it held before, in place, followed by the enumerated color spaces; two calls
into the same collection on the same backend leave two full copies of the
enumeration after the original entries, nothing deduplicated. -/
theorem listColorSpaces_additive (backend : Backend) (list : List ColorSpace) :
    (∀ i : Nat, i < list.length →
      (System.listColorSpaces backend list)[i]? = list[i]?) ∧
    (System.listColorSpaces backend list).drop list.length = backend.colorSpaces ∧
    System.listColorSpaces backend (System.listColorSpaces backend list)
      = list ++ (backend.colorSpaces ++ backend.colorSpaces) ∧
    (System.listColorSpaces backend (System.listColorSpaces backend list)).length
      = list.length + 2 * backend.colorSpaces.length := by
  refine ⟨?_, ?_, ?_, ?_⟩
  · intro i hi
    simp [System.listColorSpaces, List.getElem?_append_left hi]
  · simp [System.listColorSpaces]
  · simp [System.listColorSpaces]
  · simp [System.listColorSpaces]
    omega

end os
